import Mathlib

/-!
# EFHC-Bot — verification of the economic-core specification

Shallow embedding of the EFHC economy: client-side validators from
`Exchange.jsx` (src/unnamed/part_000), `Withdraw.jsx` and the SQL schema
(src/unnamed/part_001), and `Panels.js`; the server-side ledger operations
are not part of the repository snapshot (only their callers, schema and
documented contracts are), so they are modelled from the spec — each such
definition carries a doc comment starting `Modelled from the spec:`.

Amounts (EFHC and kWh) are 3-decimal fixed-point numbers in the schema
(`NUMERIC(14,3)`); they are embedded as integers counting milli-units
(the value scaled by 1000), so e.g. the panel price of 100 EFHC is the
integer 100000 and a generation rate of 0.598 kWh/day is 598.
-/

namespace EFHC

/-! ## TON-address validators (client side, from the source) -/

/-- JavaScript `String.prototype.trim` on a character list. -/
def jsTrim (s : List Char) : List Char :=
  ((s.dropWhile Char.isWhitespace).reverse.dropWhile Char.isWhitespace).reverse

/-- `a.startsWith p` on character lists (JS `String.prototype.startsWith`). -/
def startsWithL : List Char → List Char → Bool
  | [], _ => true
  | _ :: _, [] => false
  | a :: as, b :: bs => a == b && startsWithL as bs

/-- Substring occurrence check: does `pat` occur contiguously in `s`? -/
def containsSub (pat : List Char) : List Char → Bool
  | [] => startsWithL pat []
  | c :: rest => startsWithL pat (c :: rest) || containsSub pat rest

/-- JS regex `\w`: `[A-Za-z0-9_]`. -/
def isWordChar (c : Char) : Bool :=
  ('A' ≤ c && c ≤ 'Z') || ('a' ≤ c && c ≤ 'z') || ('0' ≤ c && c ≤ '9') || c == '_'

/-- Does `-` followed by a word character occur anywhere in the string
(the `-\w` alternative of the withdrawal regex)? -/
def hasDashWord : List Char → Bool
  | [] => false
  | [_] => false
  | a :: b :: rest => (a == '-' && isWordChar b) || hasDashWord (b :: rest)

/-- `canBindWallet` from `Exchange.jsx` (src/unnamed/part_000, lines 139–143):
trim the input, then require `length > 10` and a `"UQ"` or `"EQ"` prefix. -/
def canBindWallet (input : List Char) : Bool :=
  let addr := jsTrim input
  decide (addr.length > 10) &&
    (startsWithL ['U', 'Q'] addr || startsWithL ['E', 'Q'] addr)

/-- The withdrawal-form address test from `Withdraw.jsx`
(src/unnamed/part_001, line 105): the JS regex `/^UQ|EQ|0\:|kQ|-\w/`.
Alternation binds loosest, so `^` anchors only the first alternative:
the regex matches iff the string starts with `"UQ"`, or contains `"EQ"`,
`"0:"`, `"kQ"`, or `-` followed by a word character, anywhere. -/
def withdrawAddressTest (w : List Char) : Bool :=
  startsWithL ['U', 'Q'] w || containsSub ['E', 'Q'] w ||
    containsSub ['0', ':'] w || containsSub ['k', 'Q'] w || hasDashWord w

/-- The full withdrawal-form acceptance condition from `handleSubmit`
(src/unnamed/part_001, line 105): `!wallet || !regex.test(wallet)` rejects,
so acceptance is "non-empty and the regex matches". -/
def withdrawAccepts (w : List Char) : Bool :=
  !w.isEmpty && withdrawAddressTest w

/-! ## Policy constants (from `Panels.js` and the SQL schema), milli-units -/

/-- `PANEL_PRICE_EFHC = 100` EFHC (Panels.js line 41), in milli-EFHC. -/
def PANEL_PRICE_EFHC : ℤ := 100000

/-- `MAX_ACTIVE_PANELS = 1000` (Panels.js line 42). -/
def MAX_ACTIVE_PANELS : ℕ := 1000

/-- `DAYS_ACTIVE = 180` (Panels.js line 43). -/
def DAYS_ACTIVE : ℕ := 180

/-- `ENERGY_PER_DAY_BASE = 0.598` kWh/day (Panels.js line 44), in milli-kWh. -/
def ENERGY_PER_DAY_BASE : ℤ := 598

/-- `ENERGY_PER_DAY_VIP = 0.640` kWh/day (Panels.js line 45), in milli-kWh. -/
def ENERGY_PER_DAY_VIP : ℤ := 640

/-- `panels.daily_generation NUMERIC(10,3) DEFAULT 0.598`
(migration 0001, src/unnamed/part_001 line 290), in milli-kWh. -/
def dailyGenerationDefault : ℤ := 598

/-! ## Client-side operation guards (from the source) -/

/-- `canConvert` from `Exchange.jsx` (lines 120–123): amount positive
and at most the available energy. -/
def canConvert (amt kwhAvailable : ℤ) : Bool :=
  decide (amt > 0) && decide (amt ≤ kwhAvailable)

/-- `canTransfer` from `Exchange.jsx` (lines 125–132): recipient id positive,
amount positive and at most the EFHC balance. -/
def canTransfer (toId : ℤ) (amt efhcBalance : ℤ) : Bool :=
  decide (toId > 0) && decide (amt > 0) && decide (amt ≤ efhcBalance)

/-- `canWithdraw` from `Exchange.jsx` (lines 134–137): amount positive,
at most the balance, and a wallet is bound (truthy string). -/
def canWithdraw (amt efhcBalance : ℤ) (walletBound : Bool) : Bool :=
  decide (amt > 0) && decide (amt ≤ efhcBalance) && walletBound

/-- `canPurchase` from `Panels.js` (lines 115–117):
`efhcBalance >= PANEL_PRICE_EFHC && panelCount < MAX_ACTIVE_PANELS`. -/
def canPurchase (efhcBalance : ℤ) (panelCount : ℕ) : Bool :=
  decide (efhcBalance ≥ PANEL_PRICE_EFHC) && decide (panelCount < MAX_ACTIVE_PANELS)

/-! ## Data model (from the `migrations/0001_initial.sql` schema in
src/unnamed/part_001 and the spec's §3) -/

/-- A user row (`efhc_core.users`, src/unnamed/part_001 lines 266–281),
restricted to the economic fields. `kwh_available` is the
generated-but-unconverted energy counter exposed by the exchange API
(`kwh_available` in the `GET /api/exchange` contract). -/
structure UserSt where
  main_balance : ℤ
  bonus_balance : ℤ
  kwh_available : ℤ
  total_generated_kwh : ℤ
  todays_generated_kwh : ℤ
  is_active_user : Bool
  has_vip : Bool
  wallet_ton : Option (List Char)
  deriving Repr, DecidableEq

/-- A panel row (`panels`, src/unnamed/part_001 lines 285–292), with the
spec's `remaining_days` counter (rendered as `days_left` by `Panels.js`). -/
structure Panel where
  owner : ℕ
  remaining_days : ℕ
  daily_generation : ℤ
  active : Bool
  deriving Repr, DecidableEq

/-- Withdrawal-request statuses (spec §4.7; rendered by `Withdraw.jsx`). -/
inductive WStatus where
  | pending
  | approved
  | sent
  | failed
  deriving Repr, DecidableEq, Fintype

/-- A withdrawal request (`withdrawal_requests`,
src/unnamed/part_001 lines 416–424). -/
structure WithdrawalRequest where
  user : ℕ
  amount_efhc : ℤ
  status : WStatus
  deriving Repr, DecidableEq

/-- A referral edge (`referrals`, src/unnamed/part_001 lines 307–313). -/
structure Referral where
  inviter : ℕ
  invited : ℕ
  is_active : Bool
  deriving Repr, DecidableEq

/-- A milestone row (`referral_milestones`, src/unnamed/part_001
lines 316–324, `UNIQUE(inviter_id, milestone)`). -/
structure Milestone where
  inviter : ℕ
  milestone : ℕ
  reward_efhc : ℤ
  awarded : Bool
  deriving Repr, DecidableEq

/-- The ledger state: a fixed set `dom` of user ids with their rows, plus
the panel, withdrawal-request, referral and milestone tables. -/
@[ext]
structure Sys where
  dom : List ℕ
  users : ℕ → UserSt
  panels : List Panel
  requests : List WithdrawalRequest
  referrals : List Referral
  milestones : List Milestone

/-- Point update of one user's row. -/
def updUser (f : ℕ → UserSt) (i : ℕ) (g : UserSt → UserSt) : ℕ → UserSt :=
  fun j => if j = i then g (f j) else f j

/-- Error outcomes of the request–response contracts (spec §6). -/
inductive Err where
  | InsufficientFunds
  | LimitExceeded
  | InvalidAmount
  | UnknownRecipient
  | WalletNotBound
  | InvalidAddress
  | InvalidTransition
  deriving Repr, DecidableEq

/-! ## Referral engine -/

/-- Number of active referral edges of an inviter (spec §4.5). -/
def activeReferralCount (S : Sys) (inv : ℕ) : ℕ :=
  (S.referrals.filter (fun r => r.inviter == inv && r.is_active)).length

/-- A milestone row that is due for awarding: belongs to the inviter,
its threshold is reached, and it has not been awarded yet. -/
def milestoneDue (inv : ℕ) (cnt : ℕ) (m : Milestone) : Bool :=
  m.inviter == inv && decide (m.milestone ≤ cnt) && !m.awarded

/-- Flip the `awarded` latch of a due milestone row. -/
def markMilestone (inv : ℕ) (cnt : ℕ) (m : Milestone) : Milestone :=
  if milestoneDue inv cnt m then { m with awarded := true } else m

/-- Total reward currently due to an inviter. -/
def dueReward (S : Sys) (inv : ℕ) : ℤ :=
  ((S.milestones.filter (milestoneDue inv (activeReferralCount S inv))).map
    Milestone.reward_efhc).sum

/-- Modelled from the spec: milestone evaluation (§4.5) — the Referral
Engine's recomputation, absent from src/. It recomputes the inviter's
active-referral count and, in one atomic step, credits the reward of every
due milestone into the inviter's bonus balance and flips those `awarded`
flags to true. -/
def evalMilestones (inv : ℕ) (S : Sys) : Sys :=
  let cnt := activeReferralCount S inv
  { S with
    users := updUser S.users inv (fun us =>
      { us with bonus_balance := us.bonus_balance +
          ((S.milestones.filter (milestoneDue inv cnt)).map Milestone.reward_efhc).sum }),
    milestones := S.milestones.map (markMilestone inv cnt) }

/-! ## Panel lifecycle and accrual -/

/-- Number of active panels owned by a user (spec §4.2's cap check). -/
def activePanelCount (S : Sys) (u : ℕ) : ℕ :=
  (S.panels.filter (fun p => p.owner == u && p.active)).length

/-- The panel created on purchase: `remaining_days = DAYS_ACTIVE`, rate
frozen from the purchaser's current VIP status (spec §4.2). -/
def newPanel (u : ℕ) (vip : Bool) : Panel :=
  { owner := u, remaining_days := DAYS_ACTIVE,
    daily_generation := if vip then ENERGY_PER_DAY_VIP else ENERGY_PER_DAY_BASE,
    active := true }

/-- Modelled from the spec: `purchase(user)` (§4.2) — the Panel Lifecycle
Manager's purchase handler (server side of `POST /api/panels/purchase`),
absent from src/. It fails with `LimitExceeded` if the active-panel count
is at least `MAX_ACTIVE_PANELS`, then with `InsufficientFunds` if the main
balance is below `PANEL_PRICE_EFHC`; on success it debits the price
(the offsetting admin-side sink is outside `dom`), creates the panel,
sets `is_active_user`, and — if the buyer has a not-yet-active referral
edge — flips it active and triggers milestone evaluation for the inviter. -/
def purchase (S : Sys) (u : ℕ) : Except Err Sys :=
  if activePanelCount S u ≥ MAX_ACTIVE_PANELS then .error .LimitExceeded
  else if (S.users u).main_balance < PANEL_PRICE_EFHC then .error .InsufficientFunds
  else
    let S1 : Sys :=
      { S with
        users := updUser S.users u (fun us =>
          { us with main_balance := us.main_balance - PANEL_PRICE_EFHC,
                    is_active_user := true }),
        panels := S.panels ++ [newPanel u (S.users u).has_vip] }
    match S.referrals.find? (fun r => r.invited == u && !r.is_active) with
    | none => .ok S1
    | some r =>
      let S2 : Sys :=
        { S1 with referrals := S1.referrals.map (fun e =>
            if e.invited == u then { e with is_active := true } else e) }
      .ok (evalMilestones r.inviter S2)

/-- Modelled from the spec: the per-panel part of a daily accrual run
(§4.3) — decrement `remaining_days` by 1 and set `active := false` when it
reaches 0; inactive (archived) panels are left untouched, never deleted. -/
def stepPanel (p : Panel) : Panel :=
  if p.active then
    { p with remaining_days := p.remaining_days - 1,
             active := decide (p.remaining_days - 1 ≠ 0) }
  else p

/-- Modelled from the spec: the cycle-initial reset of
`todays_generated_kwh` to 0 for all users (§4.3). -/
def resetToday (S : Sys) : ℕ → UserSt :=
  fun u => if u ∈ S.dom then { S.users u with todays_generated_kwh := 0 } else S.users u

/-- Modelled from the spec: one active panel's accrual credit (§4.3 step 1)
to its owner's energy counters. -/
def creditPanel (f : ℕ → UserSt) (p : Panel) : ℕ → UserSt :=
  if p.active then
    updUser f p.owner (fun us =>
      { us with
        total_generated_kwh := us.total_generated_kwh + p.daily_generation,
        todays_generated_kwh := us.todays_generated_kwh + p.daily_generation,
        kwh_available := us.kwh_available + p.daily_generation })
  else f

/-- Modelled from the spec: a whole daily accrual run (§4.3), absent from
src/ — reset the daily counters, credit every active panel's owner, then
advance/expire every panel. -/
def accrualRun (S : Sys) : Sys :=
  { S with users := S.panels.foldl creditPanel (resetToday S),
           panels := S.panels.map stepPanel }

/-! ## Wallet operations -/

/-- Modelled from the spec: `convert(user, amount_kwh)` (§4.4) — the
Conversion Service, absent from src/. Fails with `InvalidAmount` iff the
amount is nonpositive or exceeds the available energy; on success it
atomically moves the amount from the energy counter into `main_balance`
at the fixed 1:1 rate. -/
def convert (S : Sys) (u : ℕ) (amount_kwh : ℤ) : Except Err Sys :=
  if amount_kwh ≤ 0 ∨ amount_kwh > (S.users u).kwh_available then .error .InvalidAmount
  else .ok { S with users := updUser S.users u (fun us =>
    { us with kwh_available := us.kwh_available - amount_kwh,
              main_balance := us.main_balance + amount_kwh }) }

/-- Modelled from the spec: `transfer(from, to, amount)` (§4.1/§6) — the
Wallet's internal transfer, absent from src/. Unknown endpoints are
rejected with `UnknownRecipient`; a nonpositive amount or one above the
sender's main balance with `InsufficientFunds`; on success the debit and
credit happen in one atomic step. -/
def transfer (S : Sys) (fr toU : ℕ) (amount : ℤ) : Except Err Sys :=
  if fr ∉ S.dom ∨ toU ∉ S.dom then .error .UnknownRecipient
  else if amount ≤ 0 ∨ amount > (S.users fr).main_balance then .error .InsufficientFunds
  else
    let debited := updUser S.users fr (fun us =>
      { us with main_balance := us.main_balance - amount })
    .ok { S with users := updUser debited toU (fun us =>
            { us with main_balance := us.main_balance + amount }) }

/-- Modelled from the spec: `create(user, amount)` of the Withdrawal
Workflow (§4.7), absent from src/. Fails with `WalletNotBound` if no
withdrawal address is bound, with `InvalidAmount` for a nonpositive
amount (the form requires `amount > 0`), and with `InsufficientFunds` if
the amount exceeds `main_balance`; on success the amount is debited
immediately and a `pending` request holding it is appended. -/
def withdrawCreate (S : Sys) (u : ℕ) (amount : ℤ) : Except Err Sys :=
  if (S.users u).wallet_ton = none then .error .WalletNotBound
  else if amount ≤ 0 then .error .InvalidAmount
  else if amount > (S.users u).main_balance then .error .InsufficientFunds
  else .ok { S with
    users := updUser S.users u (fun us =>
      { us with main_balance := us.main_balance - amount }),
    requests := S.requests ++ [{ user := u, amount_efhc := amount, status := .pending }] }

/-- The legal withdrawal status transitions (spec §4.7):
`pending → approved`, `approved → sent`, `approved → failed`,
`pending → failed`; `sent` and `failed` are terminal. -/
def allowedTransition : WStatus → WStatus → Bool
  | .pending, .approved => true
  | .approved, .sent => true
  | .approved, .failed => true
  | .pending, .failed => true
  | _, _ => false

/-- Modelled from the spec: the admin-triggered withdrawal transition
(§4.7/§6), absent from src/. Illegal moves are rejected with
`InvalidTransition`; a transition into `failed` credits the reserved
amount back to the user in the same step. -/
def withdrawTransition (S : Sys) (idx : ℕ) (target : WStatus) : Except Err Sys :=
  match S.requests[idx]? with
  | none => .error .InvalidTransition
  | some r =>
    if allowedTransition r.status target then
      if target = .failed then
        .ok { S with
              requests := S.requests.set idx { r with status := target },
              users := updUser S.users r.user (fun us =>
                { us with main_balance := us.main_balance + r.amount_efhc }) }
      else .ok { S with requests := S.requests.set idx { r with status := target } }
    else .error .InvalidTransition

/-- Modelled from the spec: `bind wallet(user, address)` (§6), validated by
the client-side rule `canBindWallet` (the spec's address validity is
syntactic only); stores the trimmed address. -/
def bindWallet (S : Sys) (u : ℕ) (input : List Char) : Except Err Sys :=
  if canBindWallet input then
    .ok { S with users := updUser S.users u (fun us =>
      { us with wallet_ton := some (jsTrim input) }) }
  else .error .InvalidAddress

/-! ## The operation alphabet and the step function -/

/-- The system's user-facing and scheduled operations (spec §2/§6). -/
inductive Op where
  | transfer (fr toU : ℕ) (amount : ℤ)
  | purchase (u : ℕ)
  | convert (u : ℕ) (amount_kwh : ℤ)
  | withdrawCreate (u : ℕ) (amount : ℤ)
  | withdrawTransition (idx : ℕ) (target : WStatus)
  | accrual
  | bindWallet (u : ℕ) (addr : List Char)
  deriving Repr, DecidableEq

/-- Rejected operations leave the state unchanged (spec §7: validation and
resource-limit errors are "rejected synchronously with no state change"). -/
def orUnchanged (S : Sys) : Except Err Sys → Sys
  | .ok S' => S'
  | .error _ => S

/-- One step of the system. -/
def applyOp (op : Op) (S : Sys) : Sys :=
  match op with
  | .transfer fr toU a => orUnchanged S (transfer S fr toU a)
  | .purchase u => orUnchanged S (purchase S u)
  | .convert u a => orUnchanged S (convert S u a)
  | .withdrawCreate u a => orUnchanged S (withdrawCreate S u a)
  | .withdrawTransition i t => orUnchanged S (withdrawTransition S i t)
  | .accrual => accrualRun S
  | .bindWallet u addr => orUnchanged S (bindWallet S u addr)

/-- Run a sequence of operations. -/
def run (S : Sys) (ops : List Op) : Sys :=
  ops.foldl (fun s op => applyOp op s) S

/-- Is the operation a transfer? -/
def Op.isTransfer : Op → Bool
  | .transfer _ _ _ => true
  | _ => false

/-- The operations that may mint or burn EFHC: panel purchase (the
purchase-sink burn and, through referral activation, the referral-bonus
mint), conversion (the kWh→EFHC mint), and the withdrawal workflow (the
creation burn and the failed-refund). -/
def mintBurnOp : Op → Bool
  | .purchase _ => true
  | .convert _ _ => true
  | .withdrawCreate _ _ => true
  | .withdrawTransition _ _ => true
  | _ => false

/-- The mint/burn operations as enumerated by the spec's sentence
"invariant except for explicit mint/burn operations (accrual-credit,
referral-bonus, purchase-sink, withdrawal-burn)", mapped onto the
operation alphabet: accrual runs (accrual-credit), purchases (the
purchase-sink and, inside them, referral-bonus mints) and the withdrawal
workflow (withdrawal-burn). Conversion is absent from that enumeration. -/
def listedMintBurnOp : Op → Bool
  | .purchase _ => true
  | .withdrawCreate _ _ => true
  | .withdrawTransition _ _ => true
  | .accrual => true
  | _ => false

/-! ## Derived quantities and invariants -/

/-- A user's EFHC holding: `main_balance + bonus_balance`. -/
def userTotal (us : UserSt) : ℤ :=
  us.main_balance + us.bonus_balance

/-- The system-wide EFHC total over the fixed user set. -/
def totalEFHC (S : Sys) : ℤ :=
  (S.dom.map (fun u => userTotal (S.users u))).sum

/-- Balance non-negativity over the user set (spec §3's invariant). -/
def BalancesNonneg (S : Sys) : Prop :=
  ∀ u ∈ S.dom, 0 ≤ (S.users u).main_balance ∧ 0 ≤ (S.users u).bonus_balance

/-- Well-formedness of the configured/stored amounts: milestone rewards
and reserved withdrawal amounts are non-negative. -/
def ConfigNonneg (S : Sys) : Prop :=
  (∀ m ∈ S.milestones, 0 ≤ m.reward_efhc) ∧ (∀ r ∈ S.requests, 0 ≤ r.amount_efhc)

/-- The preserved state invariant. -/
def Inv (S : Sys) : Prop :=
  BalancesNonneg S ∧ ConfigNonneg S

/-! ## Concrete demonstration states (used by witnesses) -/

/-- A demonstration user: 150 EFHC main balance, 10 kWh available, with a
bound wallet (all amounts in milli-units). -/
def demoUser : UserSt :=
  { main_balance := 150000, bonus_balance := 0, kwh_available := 10000,
    total_generated_kwh := 10000, todays_generated_kwh := 0,
    is_active_user := false, has_vip := false,
    wallet_ton := some ['U', 'Q', 'A', 'B', 'C', 'D', 'E', 'F', 'G', 'H', 'I'] }

/-- A demonstration user with zero balances and nothing bound. -/
def zeroUser : UserSt :=
  { main_balance := 0, bonus_balance := 0, kwh_available := 0,
    total_generated_kwh := 0, todays_generated_kwh := 0,
    is_active_user := false, has_vip := false, wallet_ton := none }

/-- A two-user demonstration state: user 1 is `demoUser`, user 2 is
`zeroUser`. -/
def demoSys : Sys :=
  { dom := [1, 2], users := fun i => if i = 1 then demoUser else zeroUser,
    panels := [], requests := [], referrals := [], milestones := [] }

/-! ## C9 — generation rates -/

/-- C9: the per-panel daily rate is 0.598 kWh/day without VIP; with VIP it
is the base rate times (1 + 0.07) = 0.63986 kWh/day, which rounded to the
3-decimal fixed-point precision (i.e. rounded in milli-kWh) is exactly
0.640 kWh/day — the value of the code's `ENERGY_PER_DAY_VIP` constant; the
SQL default `panels.daily_generation = 0.598` agrees with the base rate. -/
theorem vip_rate_is_rounded_base_times_107_percent :
    (ENERGY_PER_DAY_BASE : ℚ) / 1000 = 0.598 ∧
    (ENERGY_PER_DAY_BASE : ℚ) / 1000 * (1 + 7 / 100) = 0.63986 ∧
    round ((ENERGY_PER_DAY_BASE : ℚ) * (1 + 7 / 100)) = ENERGY_PER_DAY_VIP ∧
    (ENERGY_PER_DAY_VIP : ℚ) / 1000 = 0.640 ∧
    dailyGenerationDefault = ENERGY_PER_DAY_BASE := by
  refine ⟨by norm_num [ENERGY_PER_DAY_BASE], by norm_num [ENERGY_PER_DAY_BASE], ?_,
    by norm_num [ENERGY_PER_DAY_VIP], by norm_num [dailyGenerationDefault, ENERGY_PER_DAY_BASE]⟩
  norm_num [ENERGY_PER_DAY_BASE, ENERGY_PER_DAY_VIP, round_eq]

/-! ## C10 — the two TON-address validators differ -/

/-- C10: the wallet-bind validator accepts exactly the inputs whose trimmed
form has length > 10 and starts with "UQ" or "EQ"; the withdrawal-form
regex `/^UQ|EQ|0\:|kQ|-\w/` (whose `^` anchors only the first alternative)
accepts any string containing "EQ", "0:", "kQ", or `-` followed by a word
character anywhere, of any length; the concrete input "xEQ" (a short
string with "EQ" in the middle) is accepted by the withdrawal check and
rejected by the bind check, so the two validators accept different sets. -/
theorem address_validators_diverge :
    (∀ s : List Char, canBindWallet s = true ↔
      ((jsTrim s).length > 10 ∧
        (startsWithL ['U', 'Q'] (jsTrim s) = true ∨
         startsWithL ['E', 'Q'] (jsTrim s) = true))) ∧
    (∀ s : List Char, containsSub ['E', 'Q'] s = true → withdrawAccepts s = true) ∧
    (∀ s : List Char, containsSub ['0', ':'] s = true → withdrawAccepts s = true) ∧
    (∀ s : List Char, containsSub ['k', 'Q'] s = true → withdrawAccepts s = true) ∧
    (∀ s : List Char, hasDashWord s = true → withdrawAccepts s = true) ∧
    (withdrawAccepts ['x', 'E', 'Q'] = true ∧ canBindWallet ['x', 'E', 'Q'] = false) := by
  refine ⟨?_, ?_, ?_, ?_, ?_, by decide, by decide⟩
  · intro s
    simp [canBindWallet, Bool.and_eq_true, Bool.or_eq_true, decide_eq_true_iff]
  · intro s h
    cases s with
    | nil => simp [containsSub, startsWithL] at h
    | cons c rest =>
      simp only [withdrawAccepts, withdrawAddressTest, h, List.isEmpty_cons,
        Bool.not_false, Bool.true_and, Bool.or_true, Bool.true_or, Bool.or_assoc]
  · intro s h
    cases s with
    | nil => simp [containsSub, startsWithL] at h
    | cons c rest =>
      simp only [withdrawAccepts, withdrawAddressTest, h, List.isEmpty_cons,
        Bool.not_false, Bool.true_and, Bool.or_true, Bool.true_or, Bool.or_assoc]
  · intro s h
    cases s with
    | nil => simp [containsSub, startsWithL] at h
    | cons c rest =>
      simp only [withdrawAccepts, withdrawAddressTest, h, List.isEmpty_cons,
        Bool.not_false, Bool.true_and, Bool.or_true, Bool.true_or, Bool.or_assoc]
  · intro s h
    cases s with
    | nil => simp [hasDashWord] at h
    | cons c rest =>
      simp only [withdrawAccepts, withdrawAddressTest, h, List.isEmpty_cons,
        Bool.not_false, Bool.true_and, Bool.or_true, Bool.true_or, Bool.or_assoc]

/-- Witness for C10 at concrete inputs: the bind validator accepts the
11-character "UQxxxxxxxxx", and the withdrawal regex accepts "aEQ". -/
theorem address_validators_diverge_witness :
    canBindWallet ['U', 'Q', 'x', 'x', 'x', 'x', 'x', 'x', 'x', 'x', 'x'] = true ∧
    withdrawAccepts ['a', 'E', 'Q'] = true :=
  ⟨(address_validators_diverge.1 _).mpr ⟨by decide, Or.inl (by decide)⟩,
   address_validators_diverge.2.1 ['a', 'E', 'Q'] (by decide)⟩

/-! ## Basic update lemmas -/

theorem updUser_apply (f : ℕ → UserSt) (i : ℕ) (g : UserSt → UserSt) (j : ℕ) :
    updUser f i g j = if j = i then g (f j) else f j := rfl

/-- `resetToday` touches only `todays_generated_kwh`. -/
theorem resetToday_main (S : Sys) (u : ℕ) :
    ((resetToday S) u).main_balance = (S.users u).main_balance ∧
    ((resetToday S) u).bonus_balance = (S.users u).bonus_balance ∧
    ((resetToday S) u).kwh_available = (S.users u).kwh_available := by
  unfold resetToday; split <;> exact ⟨rfl, rfl, rfl⟩

/-- Folding accrual credits over panels never changes EFHC balances. -/
theorem foldl_creditPanel_balances (ps : List Panel) (f : ℕ → UserSt) (u : ℕ) :
    ((ps.foldl creditPanel f) u).main_balance = (f u).main_balance ∧
    ((ps.foldl creditPanel f) u).bonus_balance = (f u).bonus_balance := by
  induction ps generalizing f with
  | nil => exact ⟨rfl, rfl⟩
  | cons p ps ih =>
    rw [List.foldl_cons]
    refine ⟨(ih (creditPanel f p)).1.trans ?_, (ih (creditPanel f p)).2.trans ?_⟩ <;>
      · unfold creditPanel
        split
        · rw [updUser_apply]; split <;> rfl
        · rfl

/-- The accrual run never changes EFHC balances. -/
theorem accrualRun_balances (S : Sys) (u : ℕ) :
    ((accrualRun S).users u).main_balance = (S.users u).main_balance ∧
    ((accrualRun S).users u).bonus_balance = (S.users u).bonus_balance := by
  have h1 := foldl_creditPanel_balances S.panels (resetToday S) u
  have h2 := resetToday_main S u
  exact ⟨h1.1.trans h2.1, h1.2.trans h2.2.1⟩

/-! ## C2 — purchase guards -/

/-- C2: `purchase` fails with `LimitExceeded` when the active-panel count
is at least `MAX_ACTIVE_PANELS` (1000); otherwise it fails with
`InsufficientFunds` when the main balance is below `PANEL_PRICE_EFHC`
(100 EFHC); it succeeds exactly when `canPurchase` (the client-side guard
from `Panels.js`) holds, i.e. balance ≥ 100 EFHC and count < 1000; and
every failure leaves the state unchanged. -/
theorem purchase_guard_spec (S : Sys) (u : ℕ) :
    (activePanelCount S u ≥ MAX_ACTIVE_PANELS →
      purchase S u = .error .LimitExceeded) ∧
    (activePanelCount S u < MAX_ACTIVE_PANELS →
      (S.users u).main_balance < PANEL_PRICE_EFHC →
      purchase S u = .error .InsufficientFunds) ∧
    ((purchase S u).isOk =
      canPurchase (S.users u).main_balance (activePanelCount S u)) ∧
    (∀ e : Err, purchase S u = .error e → applyOp (.purchase u) S = S) := by
  refine ⟨?_, ?_, ?_, ?_⟩
  · intro h
    unfold purchase
    rw [if_pos h]
  · intro h1 h2
    unfold purchase
    rw [if_neg (Nat.not_le.mpr h1), if_pos h2]
  · by_cases h1 : activePanelCount S u ≥ MAX_ACTIVE_PANELS
    · unfold purchase
      rw [if_pos h1]
      simp [canPurchase, Except.isOk, Except.toBool, Nat.not_lt.mpr h1]
    · by_cases h2 : (S.users u).main_balance < PANEL_PRICE_EFHC
      · unfold purchase
        rw [if_neg h1, if_pos h2]
        simp [canPurchase, Except.isOk, Except.toBool, not_le.mpr h2]
      · unfold purchase
        rw [if_neg h1, if_neg h2]
        cases hf : S.referrals.find? (fun r => r.invited == u && !r.is_active) with
        | none =>
          simp [hf, Except.isOk, Except.toBool, canPurchase, not_lt.mp h2, Nat.lt_of_not_le h1]
        | some r =>
          simp [hf, Except.isOk, Except.toBool, canPurchase, not_lt.mp h2, Nat.lt_of_not_le h1]
  · intro e h
    simp [applyOp, h, orUnchanged]

/-- Witness for C2: the spec's scenario — user 2 of `demoSys` has 0 panels
and 0 balance, so a purchase at price 100 EFHC fails with
`InsufficientFunds` and leaves the state unchanged. -/
theorem purchase_guard_spec_witness :
    purchase demoSys 2 = .error .InsufficientFunds ∧
    applyOp (.purchase 2) demoSys = demoSys :=
  ⟨(purchase_guard_spec demoSys 2).2.1 (by decide) (by decide),
   (purchase_guard_spec demoSys 2).2.2.2 Err.InsufficientFunds
     ((purchase_guard_spec demoSys 2).2.1 (by decide) (by decide))⟩

/-! ## Milestone-evaluation and step lemmas -/

/-- Milestone evaluation changes nothing in a user row besides the bonus
balance. -/
theorem evalMilestones_users (inv : ℕ) (S : Sys) (u : ℕ) :
    ((evalMilestones inv S).users u).main_balance = (S.users u).main_balance ∧
    ((evalMilestones inv S).users u).kwh_available = (S.users u).kwh_available ∧
    ((evalMilestones inv S).users u).wallet_ton = (S.users u).wallet_ton := by
  unfold evalMilestones
  simp only [updUser_apply]
  split <;> exact ⟨rfl, rfl, rfl⟩

/-- Any step either does not increase a user's available energy, or — in
the accrual case, the only energy mint — leaves their EFHC balances
unchanged: no operation turns EFHC back into kWh. -/
theorem applyOp_kwh_or_balances (op : Op) (S : Sys) (u : ℕ) :
    ((applyOp op S).users u).kwh_available ≤ (S.users u).kwh_available ∨
    (((applyOp op S).users u).main_balance = (S.users u).main_balance ∧
     ((applyOp op S).users u).bonus_balance = (S.users u).bonus_balance) := by
  cases op with
  | accrual => exact Or.inr (accrualRun_balances S u)
  | transfer fr toU a =>
    left
    simp only [applyOp, transfer]
    split_ifs
    · exact le_refl _
    · exact le_refl _
    · simp only [orUnchanged, updUser_apply]
      split_ifs <;> exact le_refl _
  | purchase v =>
    left
    simp only [applyOp, purchase]
    split_ifs
    · exact le_refl _
    · exact le_refl _
    · cases hf : S.referrals.find? (fun r => r.invited == v && !r.is_active) with
      | none =>
        simp only [hf, orUnchanged, updUser_apply]
        split_ifs <;> exact le_refl _
      | some r =>
        simp only [hf, orUnchanged]
        rw [(evalMilestones_users r.inviter _ u).2.1]
        simp only [updUser_apply]
        split_ifs <;> exact le_refl _
  | convert v a =>
    left
    simp only [applyOp, convert]
    split_ifs with hg
    · exact le_refl _
    · push_neg at hg
      simp only [orUnchanged, updUser_apply]
      split_ifs
      · show (S.users u).kwh_available - a ≤ (S.users u).kwh_available
        omega
      · exact le_refl _
  | withdrawCreate v a =>
    left
    simp only [applyOp, withdrawCreate]
    split_ifs
    · exact le_refl _
    · exact le_refl _
    · exact le_refl _
    · simp only [orUnchanged, updUser_apply]
      split_ifs <;> exact le_refl _
  | withdrawTransition i t =>
    left
    simp only [applyOp, withdrawTransition]
    cases hr : S.requests[i]? with
    | none => exact le_refl _
    | some r =>
      simp only [hr]
      split_ifs
      · simp only [orUnchanged, updUser_apply]
        split_ifs <;> exact le_refl _
      · exact le_refl _
      · exact le_refl _
  | bindWallet v addr =>
    left
    simp only [applyOp, bindWallet]
    split_ifs
    · simp only [orUnchanged, updUser_apply]
      split_ifs <;> exact le_refl _
    · exact le_refl _

/-! ## C3 — conversion -/

/-- C3: `convert` fails with `InvalidAmount` iff the amount is nonpositive
or exceeds the available energy (so success coincides with the client-side
`canConvert`); on success the available-energy counter decreases by the
amount and `main_balance` increases by exactly the same amount (1:1); and
no operation converts EFHC back into kWh: any step that increases a user's
available energy leaves both EFHC balances unchanged. -/
theorem convert_spec (S : Sys) (u : ℕ) (a : ℤ) :
    (convert S u a = .error .InvalidAmount ↔
      (a ≤ 0 ∨ a > (S.users u).kwh_available)) ∧
    ((convert S u a).isOk = canConvert a (S.users u).kwh_available) ∧
    (∀ S', convert S u a = .ok S' →
      ((S'.users u).kwh_available = (S.users u).kwh_available - a ∧
       (S'.users u).main_balance = (S.users u).main_balance + a)) ∧
    (∀ op : Op, ((applyOp op S).users u).kwh_available > (S.users u).kwh_available →
      (((applyOp op S).users u).main_balance = (S.users u).main_balance ∧
       ((applyOp op S).users u).bonus_balance = (S.users u).bonus_balance)) := by
  refine ⟨?_, ?_, ?_, ?_⟩
  · constructor
    · intro h
      by_contra hc
      unfold convert at h
      rw [if_neg hc] at h
      exact Except.noConfusion h
    · intro h
      unfold convert
      rw [if_pos h]
  · by_cases h : a ≤ 0 ∨ a > (S.users u).kwh_available
    · unfold convert
      rw [if_pos h]
      rcases h with h | h
      · have hd : decide (a > 0) = false := decide_eq_false (by omega)
        simp [canConvert, Except.isOk, Except.toBool, hd]
      · have hd : decide (a ≤ (S.users u).kwh_available) = false :=
          decide_eq_false (by omega)
        simp [canConvert, Except.isOk, Except.toBool, hd]
    · unfold convert
      rw [if_neg h]
      push_neg at h
      have h1 : decide (a > 0) = true := decide_eq_true (by omega)
      have h2 : decide (a ≤ (S.users u).kwh_available) = true := decide_eq_true h.2
      simp [canConvert, Except.isOk, Except.toBool, h1, h2]
  · intro S' h
    unfold convert at h
    by_cases hg : a ≤ 0 ∨ a > (S.users u).kwh_available
    · rw [if_pos hg] at h
      exact Except.noConfusion h
    · rw [if_neg hg] at h
      injection h with h'
      subst h'
      constructor <;> simp [updUser_apply]
  · intro op hgt
    rcases applyOp_kwh_or_balances op S u with h | h
    · omega
    · exact h

/-- Witness for C3: the spec's scenario in `demoSys` — user 1 has
10.000 kWh available; converting 10.000 succeeds, and afterwards
converting 10.001 fails with `InvalidAmount`. -/
theorem convert_spec_witness :
    (convert demoSys 1 10000).isOk = true ∧
    convert (applyOp (.convert 1 10000) demoSys) 1 10001 = .error .InvalidAmount := by
  constructor
  · rw [(convert_spec demoSys 1 10000).2.1]
    decide
  · exact ((convert_spec (applyOp (.convert 1 10000) demoSys) 1 10001).1).mpr (by decide)

/-! ## C6 — withdrawal creation -/

/-- C6: creating a withdrawal fails with `WalletNotBound` when no address
is bound and with `InsufficientFunds` when the amount exceeds the main
balance; on success the amount is debited from `main_balance` immediately
at creation and held in the appended `pending` request; and the `sent`
transition changes no user row at all — the debit is not deferred to
`sent`. -/
theorem withdrawCreate_spec (S : Sys) (u : ℕ) (a : ℤ) :
    ((S.users u).wallet_ton = none → withdrawCreate S u a = .error .WalletNotBound) ∧
    (∀ w, (S.users u).wallet_ton = some w → 0 < a →
      a > (S.users u).main_balance → withdrawCreate S u a = .error .InsufficientFunds) ∧
    (∀ S', withdrawCreate S u a = .ok S' →
      ((S'.users u).main_balance = (S.users u).main_balance - a ∧
       S'.requests = S.requests ++ [{ user := u, amount_efhc := a, status := .pending }])) ∧
    (∀ (T T' : Sys) (i : ℕ), withdrawTransition T i .sent = .ok T' →
      ∀ v, T'.users v = T.users v) := by
  refine ⟨?_, ?_, ?_, ?_⟩
  · intro h
    unfold withdrawCreate
    rw [if_pos h]
  · intro w hw hpos hgt
    unfold withdrawCreate
    rw [if_neg (by simp [hw]), if_neg (by omega), if_pos hgt]
  · intro S' h
    unfold withdrawCreate at h
    by_cases h1 : (S.users u).wallet_ton = none
    · rw [if_pos h1] at h
      exact Except.noConfusion h
    · rw [if_neg h1] at h
      by_cases h2 : a ≤ 0
      · rw [if_pos h2] at h
        exact Except.noConfusion h
      · rw [if_neg h2] at h
        by_cases h3 : a > (S.users u).main_balance
        · rw [if_pos h3] at h
          exact Except.noConfusion h
        · rw [if_neg h3] at h
          injection h with h'
          subst h'
          refine ⟨by simp [updUser_apply], rfl⟩
  · intro T T' i h v
    unfold withdrawTransition at h
    cases hr : T.requests[i]? with
    | none =>
      simp only [hr] at h
      exact Except.noConfusion h
    | some r =>
      simp only [hr] at h
      by_cases hall : allowedTransition r.status WStatus.sent = true
      · rw [if_pos hall, if_neg (by decide : ¬(WStatus.sent = WStatus.failed))] at h
        injection h with h'
        subst h'
        rfl
      · rw [if_neg hall] at h
        exact Except.noConfusion h

/-- A demonstration state with one approved withdrawal request. -/
def demoSysReq : Sys :=
  { demoSys with requests := [{ user := 1, amount_efhc := 50000, status := .approved }] }

/-- Witness for C6 at concrete inputs: in `demoSys`, a 200-EFHC withdrawal
by user 1 (balance 150 EFHC) fails with `InsufficientFunds`, and marking
the approved request of `demoSysReq` as `sent` touches no user row. -/
theorem withdrawCreate_spec_witness :
    withdrawCreate demoSys 1 200000 = .error .InsufficientFunds ∧
    (orUnchanged demoSysReq (withdrawTransition demoSysReq 0 WStatus.sent)).users 1 =
      demoSysReq.users 1 :=
  ⟨(withdrawCreate_spec demoSys 1 200000).2.1
      ['U', 'Q', 'A', 'B', 'C', 'D', 'E', 'F', 'G', 'H', 'I'] (by decide) (by decide) (by decide),
   (withdrawCreate_spec demoSys 1 200000).2.2.2 demoSysReq
      (orUnchanged demoSysReq (withdrawTransition demoSysReq 0 WStatus.sent)) 0 (by rfl) 1⟩

/-! ## C7 — milestone bonuses are awarded at most once -/

/-- A marked milestone row is never due again. -/
theorem milestoneDue_mark (inv cnt : ℕ) (m : Milestone) :
    milestoneDue inv cnt (markMilestone inv cnt m) = false := by
  unfold markMilestone
  by_cases hd : milestoneDue inv cnt m = true
  · rw [if_pos hd]
    simp [milestoneDue]
  · rw [if_neg hd]
    exact Bool.eq_false_iff.mpr hd

/-- A milestone row that is not due is left untouched by marking. -/
theorem markMilestone_of_not_due (inv cnt : ℕ) (m : Milestone)
    (h : milestoneDue inv cnt m = false) : markMilestone inv cnt m = m := by
  unfold markMilestone
  rw [h]
  simp

/-- Marking is idempotent. -/
theorem markMilestone_idem (inv cnt : ℕ) (m : Milestone) :
    markMilestone inv cnt (markMilestone inv cnt m) = markMilestone inv cnt m :=
  markMilestone_of_not_due inv cnt _ (milestoneDue_mark inv cnt m)

/-- Marking never clears the `awarded` latch. -/
theorem markMilestone_awarded (inv cnt : ℕ) (m : Milestone) (h : m.awarded = true) :
    (markMilestone inv cnt m).awarded = true := by
  unfold markMilestone
  split
  · rfl
  · exact h

/-- A point update with a fixed point of the row is the identity. -/
theorem updUser_eq_self (f : ℕ → UserSt) (i : ℕ) (g : UserSt → UserSt)
    (h : g (f i) = f i) : updUser f i g = f := by
  funext j
  rw [updUser_apply]
  split_ifs with hj
  · subst hj
    exact h
  · rfl

/-- The only operation that rewrites the milestone table is a purchase,
and it rewrites it by marking. -/
theorem applyOp_milestones (op : Op) (S : Sys) :
    (applyOp op S).milestones = S.milestones ∨
    ∃ inv cnt, (applyOp op S).milestones = S.milestones.map (markMilestone inv cnt) := by
  cases op with
  | accrual => exact Or.inl rfl
  | transfer fr toU a =>
    left
    simp only [applyOp, transfer]
    split_ifs <;> rfl
  | convert v a =>
    left
    simp only [applyOp, convert]
    split_ifs <;> rfl
  | withdrawCreate v a =>
    left
    simp only [applyOp, withdrawCreate]
    split_ifs <;> rfl
  | withdrawTransition i t =>
    left
    simp only [applyOp, withdrawTransition]
    cases hr : S.requests[i]? with
    | none => rfl
    | some r =>
      simp only [hr]
      split_ifs <;> rfl
  | bindWallet v addr =>
    left
    simp only [applyOp, bindWallet]
    split_ifs <;> rfl
  | purchase v =>
    simp only [applyOp, purchase]
    split_ifs
    · exact Or.inl rfl
    · exact Or.inl rfl
    · cases hf : S.referrals.find? (fun r => r.invited == v && !r.is_active) with
      | none => exact Or.inl rfl
      | some r =>
        simp only [hf, orUnchanged]
        exact Or.inr ⟨r.inviter, _, rfl⟩

/-- After one evaluation, nothing is due to the inviter any more. -/
theorem dueReward_evalMilestones (inv : ℕ) (S : Sys) :
    dueReward (evalMilestones inv S) inv = 0 := by
  unfold dueReward
  have hnil : (evalMilestones inv S).milestones.filter
      (milestoneDue inv (activeReferralCount (evalMilestones inv S) inv)) = [] := by
    apply List.filter_eq_nil_iff.mpr
    intro m hm
    have hms : (evalMilestones inv S).milestones =
        S.milestones.map (markMilestone inv (activeReferralCount S inv)) := rfl
    rw [hms] at hm
    rcases List.mem_map.mp hm with ⟨m0, _, rfl⟩
    have hc : activeReferralCount (evalMilestones inv S) inv = activeReferralCount S inv := rfl
    rw [hc]
    simp [milestoneDue_mark]
  rw [hnil]
  rfl

/-- Evaluating milestones twice is the same as evaluating them once. -/
theorem evalMilestones_idem (inv : ℕ) (S : Sys) :
    evalMilestones inv (evalMilestones inv S) = evalMilestones inv S := by
  have hdue0 := dueReward_evalMilestones inv S
  apply Sys.ext
  · rfl
  · show updUser (evalMilestones inv S).users inv
        (fun us => { us with bonus_balance := us.bonus_balance +
          (((evalMilestones inv S).milestones.filter
              (milestoneDue inv (activeReferralCount (evalMilestones inv S) inv))).map
            Milestone.reward_efhc).sum }) = (evalMilestones inv S).users
    apply updUser_eq_self
    simp only [show (((evalMilestones inv S).milestones.filter
        (milestoneDue inv (activeReferralCount (evalMilestones inv S) inv))).map
        Milestone.reward_efhc).sum = 0 from hdue0, add_zero]
  · rfl
  · rfl
  · rfl
  · show ((evalMilestones inv S).milestones).map
        (markMilestone inv (activeReferralCount (evalMilestones inv S) inv)) =
      (evalMilestones inv S).milestones
    have hc : activeReferralCount (evalMilestones inv S) inv = activeReferralCount S inv := rfl
    have hms : (evalMilestones inv S).milestones =
        S.milestones.map (markMilestone inv (activeReferralCount S inv)) := rfl
    rw [hc, hms, List.map_map]
    exact List.map_congr_left fun m _ => markMilestone_idem inv (activeReferralCount S inv) m

/-- C7: milestone evaluation marks exactly the due rows and credits their
whole reward into the inviter's bonus balance in the same atomic step;
immediately afterwards nothing is due any more, re-evaluating any number
of further times changes nothing more, and across every system operation a
milestone's `awarded` flag, once true, never reverts to false. -/
theorem milestone_awarded_once (S : Sys) (inv : ℕ) :
    ((evalMilestones inv S).milestones =
      S.milestones.map (markMilestone inv (activeReferralCount S inv))) ∧
    ((evalMilestones inv S).users inv).bonus_balance =
      (S.users inv).bonus_balance + dueReward S inv ∧
    dueReward (evalMilestones inv S) inv = 0 ∧
    evalMilestones inv (evalMilestones inv S) = evalMilestones inv S ∧
    (∀ n : ℕ, (evalMilestones inv)^[n + 1] S = evalMilestones inv S) ∧
    (∀ (op : Op) (i : ℕ) (m m' : Milestone),
      S.milestones[i]? = some m → (applyOp op S).milestones[i]? = some m' →
      m.awarded = true → m'.awarded = true) := by
  refine ⟨rfl, ?_, dueReward_evalMilestones inv S, evalMilestones_idem inv S, ?_, ?_⟩
  · unfold evalMilestones dueReward
    simp [updUser_apply]
  · intro n
    induction n with
    | zero => rfl
    | succ n ih =>
      rw [Function.iterate_succ_apply', ih, evalMilestones_idem]
  · intro op i m m' h1 h2 ha
    rcases applyOp_milestones op S with h | ⟨inv2, cnt2, h⟩
    · rw [h, h1] at h2
      injection h2 with h2
      exact h2 ▸ ha
    · rw [h, List.getElem?_map, h1] at h2
      simp only [Option.map_some'] at h2
      injection h2 with h2
      exact h2 ▸ markMilestone_awarded inv2 cnt2 m ha

/-- A demonstration state with one active referral (1 invited 2) and one
unawarded milestone at threshold 1 with a 10-EFHC reward. -/
def demoRef : Sys :=
  { demoSys with
    referrals := [{ inviter := 1, invited := 2, is_active := true }],
    milestones := [{ inviter := 1, milestone := 1, reward_efhc := 10000, awarded := false }] }

/-- `demoRef` with the milestone already awarded. -/
def demoRefA : Sys :=
  { demoRef with
    milestones := [{ inviter := 1, milestone := 1, reward_efhc := 10000, awarded := true }] }

/-- Witness for C7: on `demoRef`, evaluation credits the inviter's bonus
by the due reward in the same step, and on `demoRefA` the already-awarded
flag survives an accrual step. -/
theorem milestone_awarded_once_witness :
    ((evalMilestones 1 demoRef).users 1).bonus_balance =
      (demoRef.users 1).bonus_balance + dueReward demoRef 1 ∧
    Milestone.awarded { inviter := 1, milestone := 1, reward_efhc := 10000, awarded := true } =
      true :=
  ⟨(milestone_awarded_once demoRef 1).2.1,
   (milestone_awarded_once demoRefA 1).2.2.2.2.2 Op.accrual 0
     { inviter := 1, milestone := 1, reward_efhc := 10000, awarded := true }
     { inviter := 1, milestone := 1, reward_efhc := 10000, awarded := true }
     (by decide) (by decide) (by decide)⟩

/-! ## C8 — a panel lives exactly 180 accrual runs -/

/-- An active panel's step, as an equation. -/
theorem stepPanel_active_eq (p : Panel) (h : p.active = true) :
    stepPanel p =
      { p with remaining_days := p.remaining_days - 1, active := decide (p.remaining_days - 1 ≠ 0) } := by
  unfold stepPanel
  rw [if_pos h]

/-- While fewer runs than its remaining days have happened, a panel stays
active and its counter has decreased by exactly the number of runs. -/
theorem stepPanel_iter_active (d : ℕ) (p : Panel) (ha : p.active = true)
    (hd : p.remaining_days = d) :
    ∀ k, k < d → (stepPanel^[k] p).active = true ∧
      (stepPanel^[k] p).remaining_days = d - k := by
  intro k
  induction k with
  | zero =>
    intro _
    simpa using ⟨ha, hd⟩
  | succ k ih =>
    intro hk
    obtain ⟨h1, h2⟩ := ih (Nat.lt_of_succ_lt hk)
    rw [Function.iterate_succ_apply', stepPanel_active_eq _ h1]
    refine ⟨?_, ?_⟩
    · show decide ((stepPanel^[k] p).remaining_days - 1 ≠ 0) = true
      rw [h2]
      exact decide_eq_true (by omega)
    · show (stepPanel^[k] p).remaining_days - 1 = d - (k + 1)
      rw [h2]
      omega

/-- An inactive panel is left untouched by further runs. -/
theorem stepPanel_inactive (p : Panel) (h : p.active = false) : stepPanel p = p := by
  unfold stepPanel
  rw [h]
  simp

set_option maxRecDepth 4000 in
/-- C8: a panel created with `remaining_days = DAYS_ACTIVE = 180` is still
active after each of the first 179 accrual runs, is inactive with counter
0 after exactly the 180th run, and is still inactive after a 181st run;
each of the first 180 runs decrements `remaining_days` by exactly 1 (the
counter never hits 0 early); and an accrual run maps `stepPanel` over the
panel table, preserving its length — no panel record is ever deleted. -/
theorem panel_expires_after_180_runs (p : Panel) (ha : p.active = true)
    (hd : p.remaining_days = DAYS_ACTIVE) :
    (∀ k, 1 ≤ k → k ≤ 179 → (stepPanel^[k] p).active = true ∧
      (stepPanel^[k] p).remaining_days = DAYS_ACTIVE - k) ∧
    ((stepPanel^[180] p).active = false ∧ (stepPanel^[180] p).remaining_days = 0) ∧
    (stepPanel^[181] p).active = false ∧
    (∀ k, k < DAYS_ACTIVE →
      (stepPanel^[k + 1] p).remaining_days = (stepPanel^[k] p).remaining_days - 1 ∧
      (stepPanel^[k] p).remaining_days ≠ 0) ∧
    (∀ S : Sys, (applyOp .accrual S).panels = S.panels.map stepPanel ∧
      (applyOp .accrual S).panels.length = S.panels.length) := by
  have hDA : DAYS_ACTIVE = 180 := rfl
  have h179 := stepPanel_iter_active DAYS_ACTIVE p ha hd 179 (by omega)
  have h180 : (stepPanel^[180] p).active = false ∧ (stepPanel^[180] p).remaining_days = 0 := by
    rw [show (180 : ℕ) = 179 + 1 from rfl, Function.iterate_succ_apply',
      stepPanel_active_eq _ h179.1]
    have hr : (stepPanel^[179] p).remaining_days = 1 := by
      rw [h179.2, hDA]
    refine ⟨?_, ?_⟩
    · show decide ((stepPanel^[179] p).remaining_days - 1 ≠ 0) = false
      rw [hr]
      exact decide_eq_false (by omega)
    · show (stepPanel^[179] p).remaining_days - 1 = 0
      rw [hr]
  refine ⟨?_, h180, ?_, ?_, ?_⟩
  · intro k h1 h2
    exact stepPanel_iter_active DAYS_ACTIVE p ha hd k (by omega)
  · rw [show (181 : ℕ) = 180 + 1 from rfl, Function.iterate_succ_apply',
      stepPanel_inactive _ h180.1]
    exact h180.1
  · intro k hk
    have h1 := stepPanel_iter_active DAYS_ACTIVE p ha hd k hk
    refine ⟨?_, ?_⟩
    · rw [Function.iterate_succ_apply', stepPanel_active_eq _ h1.1]
    · rw [h1.2]
      omega
  · intro S
    exact ⟨rfl, by simp [applyOp, accrualRun]⟩

/-- A fresh demonstration panel with 180 remaining days. -/
def demoPanel : Panel :=
  { owner := 1, remaining_days := 180, daily_generation := ENERGY_PER_DAY_BASE, active := true }

/-- Witness for C8: the fresh `demoPanel` is still active after 179 runs
and inactive after 180. -/
theorem panel_expires_after_180_runs_witness :
    (stepPanel^[179] demoPanel).active = true ∧ (stepPanel^[180] demoPanel).active = false :=
  ⟨((panel_expires_after_180_runs demoPanel rfl rfl).1 179 (by decide) (by decide)).1,
   (panel_expires_after_180_runs demoPanel rfl rfl).2.1.1⟩

/-! ## C5 — withdrawal status machine -/

/-- Across any operation, the request table is unchanged, extended by one
request, or has one entry rewritten along a legal transition. -/
theorem applyOp_requests (op : Op) (S : Sys) :
    (applyOp op S).requests = S.requests ∨
    (∃ q, (applyOp op S).requests = S.requests ++ [q]) ∨
    (∃ i r t, S.requests[i]? = some r ∧ allowedTransition r.status t = true ∧
      (applyOp op S).requests = S.requests.set i { r with status := t }) := by
  cases op with
  | accrual => exact Or.inl rfl
  | transfer fr toU a =>
    left
    simp only [applyOp, transfer]
    split_ifs <;> rfl
  | convert v a =>
    left
    simp only [applyOp, convert]
    split_ifs <;> rfl
  | bindWallet v addr =>
    left
    simp only [applyOp, bindWallet]
    split_ifs <;> rfl
  | purchase v =>
    left
    simp only [applyOp, purchase]
    split_ifs
    · rfl
    · rfl
    · cases hf : S.referrals.find? (fun r => r.invited == v && !r.is_active) with
      | none => rfl
      | some r => simp only [hf, orUnchanged]; rfl
  | withdrawCreate v a =>
    simp only [applyOp, withdrawCreate]
    split_ifs
    · exact Or.inl rfl
    · exact Or.inl rfl
    · exact Or.inl rfl
    · exact Or.inr (Or.inl ⟨_, rfl⟩)
  | withdrawTransition i t =>
    simp only [applyOp, withdrawTransition]
    cases hr : S.requests[i]? with
    | none => exact Or.inl rfl
    | some r =>
      simp only [hr]
      by_cases hall : allowedTransition r.status t = true
      · rw [if_pos hall]
        by_cases ht : t = WStatus.failed
        · rw [if_pos ht]
          exact Or.inr (Or.inr ⟨i, r, t, hr, hall, rfl⟩)
        · rw [if_neg ht]
          exact Or.inr (Or.inr ⟨i, r, t, hr, hall, rfl⟩)
      · rw [if_neg hall]
        exact Or.inl rfl

/-- C5: the withdrawal status set is exactly
{pending, approved, sent, failed}; `allowedTransition` holds exactly for
pending→approved, approved→sent, approved→failed and pending→failed; the
terminal statuses `sent` and `failed` admit no outgoing transition; and
across every system operation an existing request either keeps its status
or moves along one `allowedTransition` edge. -/
theorem withdrawal_state_machine :
    (∀ s : WStatus, s = .pending ∨ s = .approved ∨ s = .sent ∨ s = .failed) ∧
    (∀ s t : WStatus, allowedTransition s t = true ↔
      ((s = .pending ∧ t = .approved) ∨ (s = .approved ∧ t = .sent) ∨
       (s = .approved ∧ t = .failed) ∨ (s = .pending ∧ t = .failed))) ∧
    (∀ s t : WStatus, (s = .sent ∨ s = .failed) → allowedTransition s t = false) ∧
    (∀ (S : Sys) (op : Op) (i : ℕ) (r r' : WithdrawalRequest),
      S.requests[i]? = some r → (applyOp op S).requests[i]? = some r' →
      r' = r ∨ allowedTransition r.status r'.status = true) := by
  refine ⟨by decide, by decide, by decide, ?_⟩
  intro S op i r r' h1 h2
  rcases applyOp_requests op S with h | ⟨q, h⟩ | ⟨j, rj, t, hj, hall, h⟩
  · rw [h, h1] at h2
    injection h2 with h2
    exact Or.inl h2.symm
  · have hil : i < S.requests.length := by
      rcases List.getElem?_eq_some.mp h1 with ⟨hh, _⟩
      exact hh
    rw [h, List.getElem?_append_left hil, h1] at h2
    injection h2 with h2
    exact Or.inl h2.symm
  · by_cases hij : i = j
    · subst hij
      rw [h1] at hj
      injection hj with hj
      subst hj
      have hil : i < S.requests.length := by
        rcases List.getElem?_eq_some.mp h1 with ⟨hh, _⟩
        exact hh
      rw [h, List.getElem?_set_eq_of_lt _ hil] at h2
      injection h2 with h2
      subst h2
      exact Or.inr hall
    · rw [h, List.getElem?_set_ne (Ne.symm hij), h1] at h2
      injection h2 with h2
      exact Or.inl h2.symm

/-- Witness for C5 at a concrete input: marking the approved request of
`demoSysReq` as `sent` moves it along an `allowedTransition` edge. -/
theorem withdrawal_state_machine_witness :
    ({ user := 1, amount_efhc := 50000, status := WStatus.sent } : WithdrawalRequest) =
      { user := 1, amount_efhc := 50000, status := WStatus.approved } ∨
    allowedTransition WStatus.approved WStatus.sent = true :=
  withdrawal_state_machine.2.2.2 demoSysReq (.withdrawTransition 0 .sent) 0
    { user := 1, amount_efhc := 50000, status := .approved }
    { user := 1, amount_efhc := 50000, status := .sent }
    (by decide) (by decide)

/-! ## C1 — conservation under transfers -/

/-- Updating a user outside the summation domain does not change the
summed EFHC holdings. -/
theorem sum_userTotal_updUser_not_mem (dom : List ℕ) (f : ℕ → UserSt) (i : ℕ)
    (g : UserSt → UserSt) (h : i ∉ dom) :
    (dom.map (fun u => userTotal (updUser f i g u))).sum =
      (dom.map (fun u => userTotal (f u))).sum := by
  induction dom with
  | nil => rfl
  | cons a l ih =>
    simp only [List.map_cons, List.sum_cons]
    have ha : ¬(a = i) := fun hc => h (by rw [hc]; exact List.mem_cons_self _ _)
    rw [updUser_apply, if_neg ha, ih fun hc => h (List.mem_cons_of_mem _ hc)]

/-- Updating a user inside a duplicate-free summation domain shifts the
summed EFHC holdings by exactly the holding delta of that user. -/
theorem sum_userTotal_updUser_mem (dom : List ℕ) (f : ℕ → UserSt) (i : ℕ)
    (g : UserSt → UserSt) (hn : dom.Nodup) (h : i ∈ dom) :
    (dom.map (fun u => userTotal (updUser f i g u))).sum =
      (dom.map (fun u => userTotal (f u))).sum +
        (userTotal (g (f i)) - userTotal (f i)) := by
  induction dom with
  | nil => cases h
  | cons a l ih =>
    simp only [List.map_cons, List.sum_cons]
    rcases List.mem_cons.mp h with rfl | hl
    · rw [updUser_apply, if_pos rfl,
        sum_userTotal_updUser_not_mem l f _ g (List.nodup_cons.mp hn).1]
      ring
    · have ha : ¬(a = i) := by
        rintro rfl
        exact (List.nodup_cons.mp hn).1 hl
      rw [updUser_apply, if_neg ha, ih (List.nodup_cons.mp hn).2 hl]
      ring

/-- Pointwise equal EFHC holdings give equal totals. -/
theorem sum_userTotal_congr (dom : List ℕ) (f g : ℕ → UserSt)
    (h : ∀ u ∈ dom, userTotal (f u) = userTotal (g u)) :
    (dom.map (fun u => userTotal (f u))).sum =
      (dom.map (fun u => userTotal (g u))).sum := by
  rw [List.map_congr_left h]

/-- No operation changes the user set. -/
theorem dom_applyOp (op : Op) (S : Sys) : (applyOp op S).dom = S.dom := by
  cases op with
  | accrual => rfl
  | transfer fr toU a =>
    simp only [applyOp, transfer]
    split_ifs <;> rfl
  | convert v a =>
    simp only [applyOp, convert]
    split_ifs <;> rfl
  | withdrawCreate v a =>
    simp only [applyOp, withdrawCreate]
    split_ifs <;> rfl
  | withdrawTransition i t =>
    simp only [applyOp, withdrawTransition]
    cases hr : S.requests[i]? with
    | none => rfl
    | some r =>
      simp only [hr]
      split_ifs <;> rfl
  | bindWallet v addr =>
    simp only [applyOp, bindWallet]
    split_ifs <;> rfl
  | purchase v =>
    simp only [applyOp, purchase]
    split_ifs
    · rfl
    · rfl
    · cases hf : S.referrals.find? (fun r => r.invited == v && !r.is_active) with
      | none => rfl
      | some r => simp only [hf, orUnchanged]; rfl

/-- A transfer never changes the system-wide EFHC total. -/
theorem totalEFHC_transfer (S : Sys) (hN : S.dom.Nodup) (fr toU : ℕ) (a : ℤ) :
    totalEFHC (applyOp (.transfer fr toU a) S) = totalEFHC S := by
  simp only [applyOp, transfer]
  split_ifs with h1 h2
  · rfl
  · rfl
  · push_neg at h1
    show ((S.dom.map (fun u => userTotal (updUser
        (updUser S.users fr fun us => { us with main_balance := us.main_balance - a }) toU
        (fun us => { us with main_balance := us.main_balance + a }) u))).sum) = totalEFHC S
    rw [sum_userTotal_updUser_mem S.dom _ toU _ hN h1.2,
      sum_userTotal_updUser_mem S.dom _ fr _ hN h1.1]
    have hgc : ∀ x : UserSt,
        userTotal { x with main_balance := x.main_balance + a } = userTotal x + a := by
      intro x
      show x.main_balance + a + x.bonus_balance = x.main_balance + x.bonus_balance + a
      ring
    have hgd : ∀ x : UserSt,
        userTotal { x with main_balance := x.main_balance - a } = userTotal x - a := by
      intro x
      show x.main_balance - a + x.bonus_balance = x.main_balance + x.bonus_balance - a
      ring
    simp only [hgc, hgd, totalEFHC]
    ring

/-- Only mint/burn operations (purchase with its referral bonus,
conversion, withdrawal creation and withdrawal transitions) can change
the system-wide EFHC total. -/
theorem totalEFHC_applyOp_of_not_mintBurn (op : Op) (S : Sys) (hN : S.dom.Nodup)
    (h : mintBurnOp op = false) : totalEFHC (applyOp op S) = totalEFHC S := by
  cases op with
  | transfer fr toU a => exact totalEFHC_transfer S hN fr toU a
  | accrual =>
    show ((S.dom.map (fun u => userTotal ((accrualRun S).users u))).sum) = totalEFHC S
    apply sum_userTotal_congr
    intro u _
    unfold userTotal
    rw [(accrualRun_balances S u).1, (accrualRun_balances S u).2]
  | bindWallet v addr =>
    simp only [applyOp, bindWallet]
    split_ifs
    · show ((S.dom.map (fun u => userTotal (updUser S.users v
          (fun us => { us with wallet_ton := some (jsTrim addr) }) u))).sum) = totalEFHC S
      apply sum_userTotal_congr
      intro u _
      rw [updUser_apply]
      split_ifs <;> rfl
    · rfl
  | purchase v => simp [mintBurnOp] at h
  | convert v a => simp [mintBurnOp] at h
  | withdrawCreate v a => simp [mintBurnOp] at h
  | withdrawTransition i t => simp [mintBurnOp] at h

theorem run_cons (S : Sys) (op : Op) (ops : List Op) :
    run S (op :: ops) = run (applyOp op S) ops := rfl

/-- Auxiliary induction: a run of transfers preserves the total. -/
theorem totalEFHC_run_transfers (ops : List Op) : ∀ S : Sys, S.dom.Nodup →
    (∀ op ∈ ops, op.isTransfer = true) → totalEFHC (run S ops) = totalEFHC S := by
  induction ops with
  | nil => intro S _ _; rfl
  | cons op ops ih =>
    intro S hN hall
    have hop : op.isTransfer = true := hall op (List.mem_cons_self _ _)
    have hstep : totalEFHC (applyOp op S) = totalEFHC S := by
      cases op with
      | transfer fr toU a => exact totalEFHC_transfer S hN fr toU a
      | purchase v => simp [Op.isTransfer] at hop
      | convert v a => simp [Op.isTransfer] at hop
      | withdrawCreate v a => simp [Op.isTransfer] at hop
      | withdrawTransition i t => simp [Op.isTransfer] at hop
      | accrual => simp [Op.isTransfer] at hop
      | bindWallet v addr => simp [Op.isTransfer] at hop
    rw [run_cons, ih (applyOp op S) (by rw [dom_applyOp]; exact hN)
      (fun o ho => hall o (List.mem_cons_of_mem _ ho)), hstep]

/-- C1 (amended): for every sequence of transfers among the fixed user
set, the summed `main_balance + bonus_balance` is unchanged, and a single
step changes the total only if it is a mint/burn operation — a purchase
(purchase-sink burn and referral-bonus mint), a conversion (kWh→EFHC
mint), or the withdrawal workflow (creation burn / failed-refund). -/
theorem transfer_conservation (S : Sys) (hN : S.dom.Nodup) :
    (∀ ops : List Op, (∀ op ∈ ops, op.isTransfer = true) →
      totalEFHC (run S ops) = totalEFHC S) ∧
    (∀ op : Op, mintBurnOp op = false → totalEFHC (applyOp op S) = totalEFHC S) :=
  ⟨fun ops hall => totalEFHC_run_transfers ops S hN hall,
   fun op h => totalEFHC_applyOp_of_not_mintBurn op S hN h⟩

/-- Counterexample for C1 as stated: a conversion is none of the claim's
enumerated mint/burn kinds (accrual-credit, referral-bonus, purchase-sink,
withdrawal-burn) and is not a transfer, yet converting 5 kWh in `demoSys`
raises the system-wide EFHC total. -/
theorem transfer_conservation_counterexample :
    listedMintBurnOp (Op.convert 1 5000) = false ∧
    Op.isTransfer (Op.convert 1 5000) = false ∧
    totalEFHC (applyOp (Op.convert 1 5000) demoSys) ≠ totalEFHC demoSys := by
  refine ⟨rfl, rfl, ?_⟩
  decide

/-- Witness for C1: a concrete 5-EFHC transfer from user 1 to user 2 in
`demoSys` leaves the total unchanged. -/
theorem transfer_conservation_witness :
    totalEFHC (run demoSys [Op.transfer 1 2 5000]) = totalEFHC demoSys :=
  (transfer_conservation demoSys (by decide)).1 [Op.transfer 1 2 5000]
    (by intro op hop; fin_cases hop; rfl)

/-! ## C4 — balances are never negative in reachable states -/

/-- Milestone evaluation credits the inviter's bonus by the due reward
and leaves every other bonus balance unchanged. -/
theorem evalMilestones_bonus (inv : ℕ) (S : Sys) (u : ℕ) :
    ((evalMilestones inv S).users u).bonus_balance =
      (S.users u).bonus_balance + (if u = inv then dueReward S inv else 0) := by
  unfold evalMilestones dueReward
  simp only [updUser_apply]
  split_ifs with hu
  · rfl
  · rw [add_zero]

/-- With non-negative configured rewards, the due reward is non-negative. -/
theorem dueReward_nonneg (S : Sys) (inv : ℕ)
    (hM : ∀ m ∈ S.milestones, 0 ≤ m.reward_efhc) : 0 ≤ dueReward S inv := by
  unfold dueReward
  apply List.sum_nonneg
  intro x hx
  rcases List.mem_map.mp hx with ⟨m, hm, rfl⟩
  exact hM m (List.mem_of_mem_filter hm)

/-- Milestone evaluation preserves the invariant. -/
theorem Inv_evalMilestones (inv : ℕ) (S : Sys) (h : Inv S) :
    Inv (evalMilestones inv S) := by
  obtain ⟨hB, hM, hR⟩ := h
  refine ⟨?_, ?_, ?_⟩
  · intro u hu
    have hu' : u ∈ S.dom := hu
    refine ⟨?_, ?_⟩
    · rw [(evalMilestones_users inv S u).1]
      exact (hB u hu').1
    · rw [evalMilestones_bonus]
      have hb := (hB u hu').2
      split_ifs with hui
      · have hd := dueReward_nonneg S inv hM
        omega
      · omega
  · intro m hm
    have hms : (evalMilestones inv S).milestones =
        S.milestones.map (markMilestone inv (activeReferralCount S inv)) := rfl
    rw [hms] at hm
    rcases List.mem_map.mp hm with ⟨m0, hm0, rfl⟩
    have hrw : (markMilestone inv (activeReferralCount S inv) m0).reward_efhc =
        m0.reward_efhc := by
      unfold markMilestone
      split <;> rfl
    rw [hrw]
    exact hM m0 hm0
  · exact hR

/-- Every single operation preserves the invariant. -/
theorem Inv_applyOp (op : Op) (S : Sys) (h : Inv S) : Inv (applyOp op S) := by
  obtain ⟨hB, hM, hR⟩ := h
  cases op with
  | accrual =>
    refine ⟨?_, hM, hR⟩
    intro u hu
    refine ⟨?_, ?_⟩
    · show 0 ≤ ((accrualRun S).users u).main_balance
      rw [(accrualRun_balances S u).1]
      exact (hB u hu).1
    · show 0 ≤ ((accrualRun S).users u).bonus_balance
      rw [(accrualRun_balances S u).2]
      exact (hB u hu).2
  | transfer fr toU a =>
    simp only [applyOp, transfer]
    split_ifs with h1 h2
    · exact ⟨hB, hM, hR⟩
    · exact ⟨hB, hM, hR⟩
    · push_neg at h1 h2
      refine ⟨?_, hM, hR⟩
      intro u hu
      have hBu := hB u hu
      have h01 := hBu.1
      have h02 := hBu.2
      simp only [orUnchanged, updUser_apply]
      by_cases hto : u = toU
      · by_cases hfr : u = fr
        · rw [if_pos hto, if_pos hfr]
          refine ⟨?_, h02⟩
          show 0 ≤ (S.users u).main_balance - a + a
          omega
        · rw [if_pos hto, if_neg hfr]
          refine ⟨?_, h02⟩
          show 0 ≤ (S.users u).main_balance + a
          have hpos := h2.1
          omega
      · rw [if_neg hto]
        by_cases hfr : u = fr
        · rw [if_pos hfr]
          refine ⟨?_, h02⟩
          show 0 ≤ (S.users u).main_balance - a
          have hle : a ≤ (S.users u).main_balance := by
            rw [hfr]
            exact h2.2
          omega
        · rw [if_neg hfr]
          exact hBu
  | convert v a =>
    simp only [applyOp, convert]
    split_ifs with hg
    · exact ⟨hB, hM, hR⟩
    · push_neg at hg
      refine ⟨?_, hM, hR⟩
      intro u hu
      have hBu := hB u hu
      simp only [orUnchanged, updUser_apply]
      by_cases huv : u = v
      · rw [if_pos huv]
        refine ⟨?_, hBu.2⟩
        show 0 ≤ (S.users u).main_balance + a
        have h01 := hBu.1
        have hpos := hg.1
        omega
      · rw [if_neg huv]
        exact hBu
  | bindWallet v addr =>
    simp only [applyOp, bindWallet]
    split_ifs
    · refine ⟨?_, hM, hR⟩
      intro u hu
      have hBu := hB u hu
      simp only [orUnchanged, updUser_apply]
      by_cases huv : u = v
      · rw [if_pos huv]
        exact hBu
      · rw [if_neg huv]
        exact hBu
    · exact ⟨hB, hM, hR⟩
  | withdrawCreate v a =>
    simp only [applyOp, withdrawCreate]
    split_ifs with h1 h2 h3
    · exact ⟨hB, hM, hR⟩
    · exact ⟨hB, hM, hR⟩
    · exact ⟨hB, hM, hR⟩
    · refine ⟨?_, hM, ?_⟩
      · intro u hu
        have hBu := hB u hu
        simp only [orUnchanged, updUser_apply]
        by_cases huv : u = v
        · rw [if_pos huv]
          refine ⟨?_, hBu.2⟩
          show 0 ≤ (S.users u).main_balance - a
          have h01 := hBu.1
          have hle : a ≤ (S.users u).main_balance := by
            rw [huv]
            exact not_lt.mp h3
          omega
        · rw [if_neg huv]
          exact hBu
      · intro r hr
        rcases List.mem_append.mp hr with hr | hr
        · exact hR r hr
        · rcases List.mem_singleton.mp hr with rfl
          show 0 ≤ a
          have hpos := not_le.mp h2
          omega
  | withdrawTransition i t =>
    simp only [applyOp, withdrawTransition]
    cases hri : S.requests[i]? with
    | none => exact ⟨hB, hM, hR⟩
    | some r =>
      simp only [hri]
      have hrmem : r ∈ S.requests := List.getElem?_mem hri
      by_cases hall : allowedTransition r.status t = true
      · rw [if_pos hall]
        by_cases ht : t = WStatus.failed
        · rw [if_pos ht]
          refine ⟨?_, hM, ?_⟩
          · intro u hu
            have hBu := hB u hu
            simp only [orUnchanged, updUser_apply]
            by_cases hur : u = r.user
            · rw [if_pos hur]
              refine ⟨?_, hBu.2⟩
              show 0 ≤ (S.users u).main_balance + r.amount_efhc
              have h01 := hBu.1
              have h02 := hR r hrmem
              omega
            · rw [if_neg hur]
              exact hBu
          · intro q hq
            rcases List.mem_or_eq_of_mem_set hq with hq | rfl
            · exact hR q hq
            · show 0 ≤ r.amount_efhc
              exact hR r hrmem
        · rw [if_neg ht]
          refine ⟨hB, hM, ?_⟩
          intro q hq
          rcases List.mem_or_eq_of_mem_set hq with hq | rfl
          · exact hR q hq
          · show 0 ≤ r.amount_efhc
            exact hR r hrmem
      · rw [if_neg hall]
        exact ⟨hB, hM, hR⟩
  | purchase v =>
    simp only [applyOp, purchase]
    split_ifs with h1 h2
    · exact ⟨hB, hM, hR⟩
    · exact ⟨hB, hM, hR⟩
    · cases hf : S.referrals.find? (fun r => r.invited == v && !r.is_active) with
      | none =>
        simp only [hf, orUnchanged]
        refine ⟨?_, hM, hR⟩
        intro u hu
        have hBu := hB u hu
        simp only [updUser_apply]
        by_cases huv : u = v
        · rw [if_pos huv]
          refine ⟨?_, hBu.2⟩
          show 0 ≤ (S.users u).main_balance - PANEL_PRICE_EFHC
          have h01 := hBu.1
          have hle : PANEL_PRICE_EFHC ≤ (S.users u).main_balance := by
            rw [huv]
            exact not_lt.mp h2
          omega
        · rw [if_neg huv]
          exact hBu
      | some r =>
        simp only [hf, orUnchanged]
        apply Inv_evalMilestones
        refine ⟨?_, hM, hR⟩
        intro u hu
        have hBu := hB u hu
        simp only [updUser_apply]
        by_cases huv : u = v
        · rw [if_pos huv]
          refine ⟨?_, hBu.2⟩
          show 0 ≤ (S.users u).main_balance - PANEL_PRICE_EFHC
          have h01 := hBu.1
          have hle : PANEL_PRICE_EFHC ≤ (S.users u).main_balance := by
            rw [huv]
            exact not_lt.mp h2
          omega
        · rw [if_neg huv]
          exact hBu

/-- The invariant holds in every reachable state. -/
theorem Inv_run (ops : List Op) : ∀ S : Sys, Inv S → Inv (run S ops) := by
  induction ops with
  | nil => exact fun S h => h
  | cons op ops ih =>
    intro S h
    rw [run_cons]
    exact ih (applyOp op S) (Inv_applyOp op S h)

/-- C4: starting from any well-formed state (non-negative balances,
non-negative configured rewards and reserved amounts), every state
reachable by any sequence of operations — purchases, conversions,
transfers, withdrawal creations and transitions, accruals, wallet binds —
has non-negative `main_balance` and `bonus_balance` for every user. -/
theorem balances_never_negative (S : Sys) (ops : List Op) (h : Inv S) :
    ∀ u ∈ (run S ops).dom, 0 ≤ ((run S ops).users u).main_balance ∧
      0 ≤ ((run S ops).users u).bonus_balance :=
  (Inv_run ops S h).1

/-- The demonstration state is well-formed. -/
theorem Inv_demoSys : Inv demoSys := by
  refine ⟨?_, ?_, ?_⟩
  · intro u hu
    show 0 ≤ (if u = 1 then demoUser else zeroUser).main_balance ∧
      0 ≤ (if u = 1 then demoUser else zeroUser).bonus_balance
    split_ifs
    · exact ⟨by decide, by decide⟩
    · exact ⟨by decide, by decide⟩
  · intro m hm
    exact absurd hm (List.not_mem_nil m)
  · intro r hr
    exact absurd hr (List.not_mem_nil r)

/-- Witness for C4: after a purchase, an accrual run and a transfer in
`demoSys`, user 1's main balance is still non-negative. -/
theorem balances_never_negative_witness :
    0 ≤ ((run demoSys [Op.purchase 1, Op.accrual, Op.transfer 1 2 5000]).users 1).main_balance :=
  (balances_never_negative demoSys [Op.purchase 1, Op.accrual, Op.transfer 1 2 5000]
    Inv_demoSys 1 (by decide)).1

end EFHC
